import Mathlib

/-!
# NeuroNudge — verification of the Q-learning recommender core

Shallow embedding of the repository's core types and functions:

* `src/types/src/content.rs` — `DifficultyLevel`, `Lesson`, `QuestionAttempt`,
  `LessonResult` (string identities are abstracted to `Nat` ids; the question
  list of a lesson is abstracted to its length, the only feature the engine
  reads; per-question ids feed no computation and are dropped).
* `src/types/src/engine.rs` — `Mastery`, `Strategy`, `QTableAlgorithm` with
  `get`, `insert`, `get_best_action`, `choose_next_difficulty`,
  `epsilon_greedy_action`, `update`.
* `src/types/src/learner.rs` — `ASDTraits` and `calculate_alignment`.
* `src/engine/src/simulate.rs` — `simulate_lesson_attempt`.

Modelling conventions:

* `f32`/`f64` arithmetic is modelled exactly over `ℚ`; every constant of the
  source is carried verbatim as a rational.
* The `HashMap` Q-table is modelled as an association list
  `List ((Lesson × DifficultyLevel) × ℚ)`; theorems quantify over the list, so
  every possible hash-iteration order is an instance of some list order.
* Each call of `rand::thread_rng().gen()` is modelled by an explicit rational
  argument (`rand`, `coin`) or by a list of draws; the draw is assumed to lie
  in `[0,1)` exactly where the source relies on that.
* A Rust `panic!` / `unwrap()` failure is modelled by an `Option` result being
  `none`.
-/

/-- The eight difficulty levels of `content.rs` (`DifficultyLevel`), in
declaration order. -/
inductive DifficultyLevel where
  | VeryEasy
  | Easy
  | Medium
  | Hard
  | VeryHard
  | Expert
  | Master
  | Grandmaster
  deriving DecidableEq, Repr

/-- The ordered array `difficulties` of `engine.rs::choose_next_difficulty`. -/
def difficulties : List DifficultyLevel :=
  [.VeryEasy, .Easy, .Medium, .Hard, .VeryHard, .Expert, .Master, .Grandmaster]

/-- Index of a difficulty in `difficulties`
(`difficulties.iter().position(...)`, which always succeeds). -/
def diffIdx : DifficultyLevel → Nat
  | .VeryEasy => 0
  | .Easy => 1
  | .Medium => 2
  | .Hard => 3
  | .VeryHard => 4
  | .Expert => 5
  | .Master => 6
  | .Grandmaster => 7

/-- `Mastery` of `engine.rs`. -/
inductive Mastery where
  | None
  | Basic
  | Competent
  | Full
  deriving DecidableEq, Repr

/-- `Strategy` of `engine.rs`: 1 = Q-learning without mastery, 2 = Q-learning
with mastery, 3 = collaborative filtering on top of 2. -/
inductive Strategy where
  | Strategy1
  | Strategy2
  | Strategy3
  deriving DecidableEq, Repr

/-- A lesson (`content.rs::Lesson`). `id` abstracts the identity-bearing
string fields (uuid, name, module); `questions` is the length of the question
list, the only feature of it the engine and simulator read;
`difficulty_level` is the lesson's own difficulty field. -/
structure Lesson where
  id : Nat
  questions : Nat
  difficulty_level : DifficultyLevel
  deriving DecidableEq, Repr

/-- One question attempt (`content.rs::QuestionAttempt`); the question-id
string feeds no computation and is dropped. -/
structure QuestionAttempt where
  time_taken : Int
  total_attempts : Int
  incorrect_attempts : Int
  hints_requested : Option Int
  deriving DecidableEq, Repr

/-- A lesson result (`content.rs::LessonResult`). -/
structure LessonResult where
  difficulty_level : DifficultyLevel
  time_taken : Int
  total_questions : Int
  attempted_questions : List QuestionAttempt
  deriving DecidableEq, Repr

/-- `LessonResult::get_total_incorrect_attempts`: sum of the per-question
incorrect-attempt counts. -/
def totalIncorrect (res : LessonResult) : Int :=
  res.attempted_questions.foldl (fun acc a => acc + a.incorrect_attempts) 0

/-- `LessonResult::get_total_hints_requested`: sum of the populated
hints-requested counts (`None` contributes nothing). -/
def totalHints (res : LessonResult) : Int :=
  res.attempted_questions.foldl (fun acc a => acc + (a.hints_requested.getD 0)) 0

/-- The Q-table: `engine.rs::QTable = HashMap<(Lesson, DifficultyLevel), f32>`
modelled as an association list. -/
abbrev QTable := List ((Lesson × DifficultyLevel) × ℚ)

/-- `engine.rs::QTableAlgorithm` (the uuid `id` string is dropped; it feeds no
computation of the claims). -/
structure QTableAlgorithm where
  q_table : QTable
  epsilon : ℚ
  discount_factor : ℚ
  learning_rate : ℚ
  strategy : Strategy
  deriving DecidableEq, Repr

/-- `QTableAlgorithm::get`. -/
def getQ (qt : QTableAlgorithm) (state : Lesson × DifficultyLevel) : Option ℚ :=
  (qt.q_table.find? (fun e => decide (e.1 = state))).map (·.2)

/-- `HashMap::insert` on the association list: replace the value at the key if
present, otherwise add the entry. -/
def listInsert (l : QTable) (k : Lesson × DifficultyLevel) (v : ℚ) : QTable :=
  if l.any (fun e => decide (e.1 = k)) then
    l.map (fun e => if e.1 = k then (k, v) else e)
  else
    l ++ [(k, v)]

/-- `QTableAlgorithm::get_best_action`: the highest-valued entry whose
difficulty equals the state's difficulty (first strict maximum in iteration
order; the `f32::MIN` sentinel is modelled by the `Option` accumulator). -/
def getBestAction (qt : QTableAlgorithm) (state : Lesson × DifficultyLevel) :
    Option (Lesson × DifficultyLevel) :=
  (qt.q_table.foldl
    (fun best e =>
      match best with
      | none => if state.2 = e.1.2 then some (e.1, e.2) else none
      | some b => if state.2 = e.1.2 ∧ b.2 < e.2 then some (e.1, e.2) else some b)
    none).map (·.1)

/-- The mastery-driven next-index computation inside
`choose_next_difficulty` (`engine.rs` lines 155-174), before the final
clamping; `coin` is the `rand::thread_rng().gen::<f32>()` draw consumed by the
`Competent` arm. -/
def nextIndexMastery (current_index : Nat) (m : Mastery) (coin : ℚ) : Nat :=
  match m with
  | .Full => current_index + 1
  | .Competent => if coin < 3/5 then current_index + 1 else current_index
  | .Basic => current_index
  | .None => if current_index = 0 then 0 else current_index - 1

/-- `QTableAlgorithm::choose_next_difficulty`. Returns `none` where the source
panics: `mastery_level.unwrap()` on a missing mastery tag (non-Strategy1), and
`lesson_with_difficulty.unwrap()` when no key of the table has the target
difficulty. -/
def chooseNextDifficulty (qt : QTableAlgorithm) (state : Lesson × DifficultyLevel)
    (mastery_level : Option Mastery) (coin : ℚ) : Option (Lesson × DifficultyLevel) :=
  let current_index := diffIdx state.2
  if qt.strategy = Strategy.Strategy1 then
    let next_index := min (current_index + 1) 7
    let next_difficulty := difficulties.getD next_index DifficultyLevel.VeryEasy
    match qt.q_table.find? (fun e => decide (e.1.2 = next_difficulty)) with
    | some e => some (e.1.1, next_difficulty)
    | none => none
  else
    match mastery_level with
    | none => none
    | some m =>
      let next_index := min (nextIndexMastery current_index m coin) 7
      let next_difficulty := difficulties.getD next_index DifficultyLevel.VeryEasy
      match qt.q_table.find? (fun e => decide (e.1.2 = next_difficulty)) with
      | some e => some (e.1.1, next_difficulty)
      | none => none

/-- `QTableAlgorithm::epsilon_greedy_action`; `rand` is the epsilon draw,
`coin` the draw a mastery-`Competent` next-difficulty choice may consume. -/
def epsilonGreedyAction (qt : QTableAlgorithm) (state : Lesson × DifficultyLevel)
    (mastery_level : Option Mastery) (rand coin : ℚ) : Option (Lesson × DifficultyLevel) :=
  if rand < qt.epsilon then
    chooseNextDifficulty qt state mastery_level coin
  else
    match getBestAction qt state with
    | some a => some a
    | none => chooseNextDifficulty qt state mastery_level coin

/-- The `difficulty_weight` table of `update` (`engine.rs` lines 200-209). -/
def difficultyWeight : DifficultyLevel → ℚ
  | .VeryEasy => 1/5
  | .Easy => 3/10
  | .Medium => 2/5
  | .Hard => 3/5
  | .VeryHard => 7/10
  | .Expert => 3/4
  | .Master => 31/40
  | .Grandmaster => 4/5

/-- The `time_taken_range_for_difficulty` table of `update`
(`engine.rs` lines 258-267). -/
def timeBand : DifficultyLevel → ℚ × ℚ
  | .VeryEasy => (5, 10)
  | .Easy => (10, 15)
  | .Medium => (20, 30)
  | .Hard => (30, 40)
  | .VeryHard => (40, 50)
  | .Expert => (50, 60)
  | .Master => (60, 70)
  | .Grandmaster => (70, 80)

/-- The `incorrect_attempts_reward` computation of `update`
(`engine.rs` lines 295-301); note the denominator is
`lesson_result.get_attempted_questions().len()`. -/
def incorrectAttemptsReward (res : LessonResult) : ℚ :=
  if totalIncorrect res = 0 then 1
  else 1 - (totalIncorrect res : ℚ) / (res.attempted_questions.length : ℚ)

/-- The `hints_requested_reward` computation of `update`
(`engine.rs` lines 303-309). -/
def hintsRequestedReward (res : LessonResult) : ℚ :=
  if totalHints res = 0 then 1
  else 1 - (totalHints res : ℚ) / (res.attempted_questions.length : ℚ)

/-- The `time_taken_reward` computation of `update`
(`engine.rs` lines 269-292); the band is taken from the state's difficulty
(`state.1` in the source). -/
def timeTakenReward (stateDifficulty : DifficultyLevel) (res : LessonResult) : ℚ :=
  let band := timeBand stateDifficulty
  let total_time_taken : ℚ := (res.time_taken : ℚ)
  if total_time_taken ≤ band.1 then 1
  else
    let time_taken_range := band.2 - band.1
    let distance_from_expected_time := total_time_taken - (band.2 - time_taken_range / 2)
    let distance_from_expected_time_percentage :=
      distance_from_expected_time / (band.2 - band.1)
    let penalty := distance_from_expected_time_percentage * time_taken_range
    1 - penalty / time_taken_range

/-- The pre-mastery reward of `update` (`engine.rs` lines 196-317): the three
weighted sub-rewards combined and clamped by `reward.max(-1.0).min(1.0)`;
the difficulty weight comes from the lesson result's difficulty, the time band
from the state's difficulty. -/
def computeReward (state : Lesson × DifficultyLevel) (res : LessonResult) : ℚ :=
  let difficulty_weight := difficultyWeight res.difficulty_level
  let time_taken_weight := 3/10 * difficulty_weight
  let incorrect_attempts_weight := 1/2 * difficulty_weight
  let hints_requested_weight := 1/5 * difficulty_weight
  let reward :=
    (time_taken_weight * timeTakenReward state.2 res
      + incorrect_attempts_weight * incorrectAttemptsReward res
      + hints_requested_weight * hintsRequestedReward res) / difficulty_weight
  min 1 (max (-1) reward)

/-- The mastery classification of `update` (`engine.rs` lines 322-330),
thresholds `FULL = 0.8`, `COMPETENT = 0.7`, `BASIC = 0.5`. -/
def masteryOf (reward : ℚ) : Mastery :=
  if 4/5 ≤ reward then .Full
  else if 7/10 ≤ reward then .Competent
  else if 1/2 ≤ reward then .Basic
  else .None

/-- The post-classification reward adjustment of `update`
(`engine.rs` lines 332-337). -/
def adjustReward (m : Mastery) (reward : ℚ) : ℚ :=
  match m with
  | .Full => 1
  | .Competent => reward + 1/10
  | .Basic => reward
  | .None => reward - 1/10

/-- The mastery tag `update` computes: classification happens only under
`Strategy2` (`engine.rs` lines 320-330). -/
def masteryFor (qt : QTableAlgorithm) (state : Lesson × DifficultyLevel)
    (res : LessonResult) : Option Mastery :=
  if qt.strategy = Strategy.Strategy2 then some (masteryOf (computeReward state res))
  else none

/-- The reward that reaches the Q-update formula: the clamped reward, adjusted
by the mastery classification exactly when one was made. -/
def adjustedReward (qt : QTableAlgorithm) (state : Lesson × DifficultyLevel)
    (res : LessonResult) : ℚ :=
  match masteryFor qt state res with
  | some m => adjustReward m (computeReward state res)
  | none => computeReward state res

/-- The `next_max` computation of `update` (`engine.rs` lines 342-348): the
maximum value over the entries whose *lesson* component equals `next_state`
(the lesson returned by `choose_next_difficulty`), or `0.0` when no entry
matches. -/
def maxLessonQ (qt : QTableAlgorithm) (next_state : Lesson) : ℚ :=
  match (qt.q_table.filter (fun e => decide (e.1.1 = next_state))).map (·.2) with
  | [] => 0
  | v :: vs => vs.foldl max v

/-- `QTableAlgorithm::update` (`engine.rs` lines 191-355): compute the clamped
reward, classify mastery under Strategy2 and adjust the reward, pick the next
state, take `next_max` over the next lesson's entries, and store the raw
Q-learning value (no clamping of the stored value). `none` models the panics
inside `choose_next_difficulty`. -/
def update (qt : QTableAlgorithm) (state : Lesson × DifficultyLevel)
    (res : LessonResult) (coin : ℚ) : Option (QTableAlgorithm × Option Mastery) :=
  let old_value := (getQ qt state).getD 0
  match chooseNextDifficulty qt state (masteryFor qt state res) coin with
  | none => none
  | some (next_state, _) =>
    let next_max := maxLessonQ qt next_state
    let new_value :=
      old_value + qt.learning_rate *
        (adjustedReward qt state res + qt.discount_factor * next_max - old_value)
    some ({ qt with q_table := listInsert qt.q_table state new_value },
          masteryFor qt state res)

/-- `learner.rs::Communicability`. -/
inductive Communicability where
  | Verbal
  | NonVerbal
  deriving DecidableEq, Repr

/-- `learner.rs::CommunicationLevel`. -/
inductive CommunicationLevel where
  | High
  | Medium
  | Low
  deriving DecidableEq, Repr

/-- `learner.rs::MotorSkills`. -/
inductive MotorSkills where
  | VeryHigh
  | High
  | Medium
  | Low
  deriving DecidableEq, Repr

/-- `learner.rs::ASDTraits` (the learner-id string feeds no computation of the
alignment and is dropped). -/
structure ASDTraits where
  attention_span : Int
  communicability : List Communicability
  communication_level : CommunicationLevel
  motor_skills : MotorSkills
  deriving DecidableEq, Repr

/-- The `communication_level_alignment` match of
`learner.rs::calculate_alignment` (lines 55-71). -/
def communicationLevelAlignment : CommunicationLevel → CommunicationLevel → ℚ
  | .High, _ => 1
  | .Medium, .High => 1/2
  | .Medium, _ => 1
  | .Low, .High => 0
  | .Low, .Medium => 1/2
  | .Low, .Low => 1

/-- The `motor_skills_alignment` match of `learner.rs::calculate_alignment`
(lines 79-104). -/
def motorSkillsAlignment : MotorSkills → MotorSkills → ℚ
  | .Low, .VeryHigh => 0
  | .Low, .High => 1/4
  | .Low, .Medium => 1/2
  | .Low, .Low => 1
  | .Medium, .VeryHigh => 1/4
  | .Medium, .High => 1/2
  | .Medium, _ => 1
  | .High, .VeryHigh => 1/2
  | .High, _ => 1
  | .VeryHigh, _ => 1

/-- `learner.rs::calculate_alignment`. The attention-span term is
`((self.attention_span / other.attention_span) as f32).min(1.0)`: an `i32`
(truncating) integer division happens *before* the float cast, so it is
modelled by `Int.tdiv`. -/
def calculate_alignment (self other : ASDTraits) : ℚ :=
  let attention_span_alignment :=
    min ((Int.tdiv self.attention_span other.attention_span : Int) : ℚ) 1
  let equal_communicability : ℚ :=
    ((self.communicability.filter
        (fun c => decide (c ∈ other.communicability))).length : ℚ)
  let communicability_alignment :=
    equal_communicability / (other.communicability.length : ℚ)
  let communication_level_alignment :=
    communicationLevelAlignment self.communication_level other.communication_level
  let communicability_alignment :=
    communicability_alignment * communication_level_alignment
  let motor_skills_alignment :=
    motorSkillsAlignment self.motor_skills other.motor_skills
  attention_span_alignment * (2/5) + communicability_alignment * (1/5)
    + communication_level_alignment * (1/5) + motor_skills_alignment * (1/5)

/-- The `time_taken` sample of `simulate.rs::simulate_lesson_attempt`
(lines 342-368): a uniform draw scaled into the difficulty's band, truncated
by `as i32` (the sampled value is positive, so truncation is `Int.floor`). -/
def sampleTime (d : DifficultyLevel) (draw : ℚ) : Int :=
  match d with
  | .VeryEasy => Int.floor (draw * 5 + 5)
  | .Easy => Int.floor (draw * 5 + 10)
  | .Medium => Int.floor (draw * 10 + 20)
  | .Hard => Int.floor (draw * 10 + 30)
  | .VeryHard => Int.floor (draw * 10 + 40)
  | .Expert => Int.floor (draw * 10 + 50)
  | .Master => Int.floor (draw * 10 + 60)
  | .Grandmaster => Int.floor (draw * 10 + 70)

/-- The base `correctness_factor` table of
`simulate.rs::simulate_lesson_attempt` (lines 372-381). -/
def correctnessFactorBase : DifficultyLevel → ℚ
  | .VeryEasy => 19/20
  | .Easy => 4/5
  | .Medium => 13/20
  | .Hard => 3/5
  | .VeryHard => 11/20
  | .Expert => 1/2
  | .Master => 9/20
  | .Grandmaster => 2/5

/-- The per-question `correctness_factor` after the Q-value bonus
(`simulate.rs` lines 390-401): the base factor, plus `0.1 * Q` when the
current state's Q-value is positive. It does not vary across questions of one
lesson. -/
def questionCorrectnessFactor (qt : QTableAlgorithm) (lesson : Lesson) : ℚ :=
  let base := correctnessFactorBase lesson.difficulty_level
  let q := (getQ qt (lesson, lesson.difficulty_level)).getD 0
  if 0 < q then base + q * (1/10) else base

/-- The `while !is_correct` loop of `simulate.rs::simulate_lesson_attempt`
(lines 403-413) on an explicit draw stream: draws are consumed until one
falls below the correctness factor, each consumed draw counting as one
attempt; `none` models a stream too short to terminate the loop. -/
def attemptsFromDraws (factor : ℚ) : List ℚ → Option (Nat × List ℚ)
  | [] => none
  | d :: ds =>
    if d < factor then some (1, ds)
    else (attemptsFromDraws factor ds).map (fun p => (p.1 + 1, p.2))

/-- The per-question loop of `simulate.rs::simulate_lesson_attempt`
(lines 370-424): each question consumes draws until one succeeds, and records
`time_taken / num_attempts` (an `i32` truncating division by the question
count), the attempt count, and `max(0, attempts - 1)` incorrect attempts. -/
def runQuestions (factor : ℚ) (time_taken : Int) (num_attempts : Nat) :
    Nat → List ℚ → Option (List QuestionAttempt)
  | 0, _ => some []
  | n + 1, draws =>
    match attemptsFromDraws factor draws with
    | none => none
    | some (attempts, rest) =>
      match runQuestions factor time_taken num_attempts n rest with
      | none => none
      | some qs =>
        some ({ time_taken := Int.tdiv time_taken (num_attempts : Int),
                total_attempts := (attempts : Int),
                incorrect_attempts := max 0 ((attempts : Int) - 1),
                hints_requested := none } :: qs)

/-- `simulate.rs::simulate_lesson_attempt` on an explicit stream of uniform
draws: the first draw samples the lesson time, the rest drive the per-question
attempt loops. -/
def simulateLessonAttempt (lesson : Lesson) (qt : QTableAlgorithm)
    (draws : List ℚ) : Option LessonResult :=
  match draws with
  | [] => none
  | timeDraw :: rest =>
    let time_taken := sampleTime lesson.difficulty_level timeDraw
    let num_attempts := lesson.questions
    match runQuestions (questionCorrectnessFactor qt lesson) time_taken
        num_attempts num_attempts rest with
    | none => none
    | some qs =>
      some { difficulty_level := lesson.difficulty_level,
             time_taken := time_taken,
             total_questions := (num_attempts : Int),
             attempted_questions := qs }

/-- Reference weight table of spec section 4.1, step 1: 0.20, 0.30, 0.40,
0.60, 0.70, 0.75, 0.775, 0.80 by ascending level. -/
def specWeight : DifficultyLevel → ℚ
  | .VeryEasy => 20/100
  | .Easy => 30/100
  | .Medium => 40/100
  | .Hard => 60/100
  | .VeryHard => 70/100
  | .Expert => 75/100
  | .Master => 775/1000
  | .Grandmaster => 80/100

/-- Reference expected-time bands of spec section 4.1, step 2. -/
def specBand : DifficultyLevel → ℚ × ℚ
  | .VeryEasy => (5, 10)
  | .Easy => (10, 15)
  | .Medium => (20, 30)
  | .Hard => (30, 40)
  | .VeryHard => (40, 50)
  | .Expert => (50, 60)
  | .Master => (60, 70)
  | .Grandmaster => (70, 80)

/-- Reference reward computation written from the words of spec section 4.1:
band-based time reward (`midpoint`, `excess`, `excess_pct`, `penalty`),
incorrect and hints sub-rewards with the attempted-question count as
denominator, the 0.3/0.5/0.2 weighted combination divided by the weight, and
the final clamp to `[-1, 1]`. -/
def specReward41 (res : LessonResult) (d : DifficultyLevel) : ℚ :=
  let weight := specWeight d
  let band := specBand d
  let time_reward :=
    if (res.time_taken : ℚ) ≤ band.1 then 1
    else
      let range := band.2 - band.1
      let midpoint := band.2 - range / 2
      let excess := (res.time_taken : ℚ) - midpoint
      let excess_pct := excess / range
      let penalty := excess_pct * range
      1 - penalty / range
  let incorrect_reward :=
    if totalIncorrect res = 0 then 1
    else 1 - (totalIncorrect res : ℚ) / (res.attempted_questions.length : ℚ)
  let hints_reward :=
    if totalHints res = 0 then 1
    else 1 - (totalHints res : ℚ) / (res.attempted_questions.length : ℚ)
  let w_time := 3/10 * weight
  let w_incorrect := 1/2 * weight
  let w_hints := 1/5 * weight
  let reward :=
    (w_time * time_reward + w_incorrect * incorrect_reward
      + w_hints * hints_reward) / weight
  min 1 (max (-1) reward)

/-- Reference `next_max` written from the words of spec section 4.3, step 4:
the maximum Q-value over all entries *at the given difficulty*, or 0 if
absent. -/
def specNextMax (qt : QTableAlgorithm) (d : DifficultyLevel) : ℚ :=
  match (qt.q_table.filter (fun e => decide (e.1.2 = d))).map (·.2) with
  | [] => 0
  | v :: vs => vs.foldl max v

/-- Reference next-difficulty index rule written from the words of spec
section 4.4 for the mastery-bearing strategies: Full advances, Competent
advances when the coin draw succeeds (probability 0.6), Basic stays, None
drops one level, and the result is clamped to `[0, 7]`. -/
def specNextIndexRule (i : Nat) (m : Mastery) (coin : ℚ) : Nat :=
  match m with
  | .Full => min (i + 1) 7
  | .Competent => if coin < 3/5 then min (i + 1) 7 else i
  | .Basic => i
  | .None => i - 1

/-- Reference alignment written from the words of spec section 4.6: real
(field) division for the attention-span ratio, intersection count over the
target's communicability size, the level and motor matrices, the
communicability-times-level product, and the 0.4/0.2/0.2/0.2 weighted sum. -/
def specAlignment (l t : ASDTraits) : ℚ :=
  let att := min ((l.attention_span : ℚ) / (t.attention_span : ℚ)) 1
  let comm :=
    ((l.communicability.filter
        (fun c => decide (c ∈ t.communicability))).length : ℚ)
      / (t.communicability.length : ℚ)
  let lvl := communicationLevelAlignment l.communication_level t.communication_level
  let motor := motorSkillsAlignment l.motor_skills t.motor_skills
  2/5 * att + 1/5 * (comm * lvl) + 1/5 * lvl + 1/5 * motor

/-! ## Helper lemmas -/

theorem difficulty_eq_iff (a b : DifficultyLevel) :
    (a = b) ↔ (diffIdx a = diffIdx b) := by
  cases a <;> cases b <;> decide

@[simp] theorem strategy1_eq_strategy2_iff_false :
    (Strategy.Strategy1 = Strategy.Strategy2) = False :=
  eq_false fun h => Strategy.noConfusion h

@[simp] theorem strategy2_eq_strategy1_iff_false :
    (Strategy.Strategy2 = Strategy.Strategy1) = False :=
  eq_false fun h => Strategy.noConfusion h

@[simp] theorem strategy3_eq_strategy2_iff_false :
    (Strategy.Strategy3 = Strategy.Strategy2) = False :=
  eq_false fun h => Strategy.noConfusion h

@[simp] theorem strategy3_eq_strategy1_iff_false :
    (Strategy.Strategy3 = Strategy.Strategy1) = False :=
  eq_false fun h => Strategy.noConfusion h

theorem diffIdx_le_seven (d : DifficultyLevel) : diffIdx d ≤ 7 := by
  cases d <;> decide

theorem diffIdx_getD (n : Nat) (hn : n ≤ 7) :
    diffIdx (difficulties.getD n DifficultyLevel.VeryEasy) = n := by
  interval_cases n <;> decide

theorem mem_listInsert {l : QTable} {k : Lesson × DifficultyLevel} {v : ℚ}
    {e : (Lesson × DifficultyLevel) × ℚ} (he : e ∈ listInsert l k v) :
    e ∈ l ∨ e = (k, v) := by
  unfold listInsert at he
  split at he
  · obtain ⟨x, hx, hfx⟩ := List.mem_map.mp he
    by_cases hxk : x.1 = k
    · right
      simp only [hxk, if_pos] at hfx
      exact hfx.symm
    · left
      simp only [hxk, if_neg, not_false_iff] at hfx
      exact hfx ▸ hx
  · rcases List.mem_append.mp he with h | h
    · exact Or.inl h
    · right
      simpa using h

theorem find?_map_replace (xs : List ((Lesson × DifficultyLevel) × ℚ))
    (k k' : Lesson × DifficultyLevel) (v : ℚ) (hk : k' ≠ k) :
    (xs.map (fun e => if e.1 = k then (k, v) else e)).find?
        (fun e => decide (e.1 = k'))
      = xs.find? (fun e => decide (e.1 = k')) := by
  induction xs with
  | nil => rfl
  | cons x xs ih =>
    simp only [List.map_cons]
    by_cases hxk : x.1 = k
    · rw [if_pos hxk]
      rw [List.find?_cons_of_neg _ (by simpa using fun h => hk h.symm),
        List.find?_cons_of_neg _ (by rw [hxk]; simpa using fun h => hk h.symm)]
      exact ih
    · rw [if_neg hxk]
      by_cases hxk' : x.1 = k'
      · rw [List.find?_cons_of_pos _ (by simpa using hxk'),
          List.find?_cons_of_pos _ (by simpa using hxk')]
      · rw [List.find?_cons_of_neg _ (by simpa using hxk'),
          List.find?_cons_of_neg _ (by simpa using hxk')]
        exact ih

theorem find?_append_single (xs : List ((Lesson × DifficultyLevel) × ℚ))
    (k k' : Lesson × DifficultyLevel) (v : ℚ) (hk : k' ≠ k) :
    (xs ++ [(k, v)]).find? (fun e => decide (e.1 = k'))
      = xs.find? (fun e => decide (e.1 = k')) := by
  induction xs with
  | nil =>
    simp only [List.nil_append, List.find?_nil]
    rw [List.find?_cons_of_neg _ (by simpa using fun h => hk h.symm)]
    rfl
  | cons x xs ih =>
    simp only [List.cons_append]
    by_cases hxk' : x.1 = k'
    · rw [List.find?_cons_of_pos _ (by simpa using hxk'),
        List.find?_cons_of_pos _ (by simpa using hxk')]
    · rw [List.find?_cons_of_neg _ (by simpa using hxk'),
        List.find?_cons_of_neg _ (by simpa using hxk')]
      exact ih

theorem find?_listInsert_ne (l : QTable) (k k' : Lesson × DifficultyLevel) (v : ℚ)
    (hk : k' ≠ k) :
    (listInsert l k v).find? (fun e => decide (e.1 = k'))
      = l.find? (fun e => decide (e.1 = k')) := by
  unfold listInsert
  split
  · exact find?_map_replace l k k' v hk
  · exact find?_append_single l k k' v hk

theorem getQ_listInsert_ne (qt : QTableAlgorithm) (k k' : Lesson × DifficultyLevel)
    (v : ℚ) (hk : k' ≠ k) :
    getQ { qt with q_table := listInsert qt.q_table k v } k' = getQ qt k' := by
  unfold getQ
  exact congrArg (Option.map _) (find?_listInsert_ne qt.q_table k k' v hk)

theorem find?_listInsert_self (l : QTable) (k : Lesson × DifficultyLevel) (v : ℚ) :
    (listInsert l k v).find? (fun e => decide (e.1 = k)) = some (k, v) := by
  unfold listInsert
  split
  · rename_i h
    induction l with
    | nil => simp at h
    | cons x xs ih =>
      simp only [List.map_cons]
      by_cases hxk : x.1 = k
      · rw [if_pos hxk]
        rw [List.find?_cons_of_pos _ (by simp)]
      · rw [if_neg hxk]
        rw [List.find?_cons_of_neg _ (by simpa using hxk)]
        apply ih
        simp only [List.any_cons, Bool.or_eq_true] at h
        rcases h with h | h
        · exact absurd (of_decide_eq_true h) hxk
        · exact h
  · rename_i h
    induction l with
    | nil =>
      simp only [List.nil_append, List.find?_nil]
      rw [List.find?_cons_of_pos _ (by simp)]
    | cons x xs ih =>
      simp only [List.any_cons, Bool.or_eq_true, not_or] at h
      simp only [List.cons_append]
      rw [List.find?_cons_of_neg _ (by simpa using fun hq => h.1 (decide_eq_true hq))]
      exact ih h.2

theorem getQ_listInsert_self (qt : QTableAlgorithm) (k : Lesson × DifficultyLevel)
    (v : ℚ) :
    getQ { qt with q_table := listInsert qt.q_table k v } k = some v := by
  unfold getQ
  rw [find?_listInsert_self qt.q_table k v]
  rfl

theorem computeReward_le_one (state : Lesson × DifficultyLevel) (res : LessonResult) :
    computeReward state res ≤ 1 := by
  unfold computeReward
  exact min_le_left _ _

theorem neg_one_le_computeReward (state : Lesson × DifficultyLevel) (res : LessonResult) :
    -1 ≤ computeReward state res := by
  unfold computeReward
  exact le_min (by norm_num) (le_max_left _ _)

theorem adjustReward_masteryOf_le_one (r : ℚ) (_h1 : r ≤ 1) :
    adjustReward (masteryOf r) r ≤ 1 := by
  unfold masteryOf
  split_ifs with ha hb hc <;> simp only [adjustReward] <;> linarith

theorem neg_le_adjustReward_masteryOf (r : ℚ) (h1 : -1 ≤ r) :
    -(11/10) ≤ adjustReward (masteryOf r) r := by
  unfold masteryOf
  split_ifs with ha hb hc <;> simp only [adjustReward] <;> linarith

theorem adjustedReward_le_one (qt : QTableAlgorithm)
    (state : Lesson × DifficultyLevel) (res : LessonResult) :
    adjustedReward qt state res ≤ 1 := by
  unfold adjustedReward masteryFor
  by_cases hs : qt.strategy = Strategy.Strategy2
  · rw [if_pos hs]
    exact adjustReward_masteryOf_le_one _ (computeReward_le_one state res)
  · rw [if_neg hs]
    exact computeReward_le_one state res

theorem neg_le_adjustedReward (qt : QTableAlgorithm)
    (state : Lesson × DifficultyLevel) (res : LessonResult) :
    -(11/10) ≤ adjustedReward qt state res := by
  unfold adjustedReward masteryFor
  by_cases hs : qt.strategy = Strategy.Strategy2
  · rw [if_pos hs]
    exact neg_le_adjustReward_masteryOf _ (neg_one_le_computeReward state res)
  · rw [if_neg hs]
    have := neg_one_le_computeReward state res
    linarith

theorem foldl_max_zero (vs : List ℚ) (v : ℚ) (hv : v = 0)
    (h : ∀ x ∈ vs, x = 0) : vs.foldl max v = 0 := by
  induction vs generalizing v with
  | nil => exact hv
  | cons x xs ih =>
    simp only [List.foldl_cons]
    apply ih
    · rw [hv, h x (List.mem_cons_self x xs), max_self]
    · intro y hy
      exact h y (List.mem_cons_of_mem x hy)

theorem maxLessonQ_zero (qt : QTableAlgorithm) (l : Lesson)
    (hz : ∀ e ∈ qt.q_table, e.2 = (0 : ℚ)) : maxLessonQ qt l = 0 := by
  unfold maxLessonQ
  have hall : ∀ x ∈ (qt.q_table.filter (fun e => decide (e.1.1 = l))).map (·.2),
      x = (0 : ℚ) := by
    intro x hx
    obtain ⟨e, he, hex⟩ := List.mem_map.mp hx
    exact hex ▸ hz e (List.mem_of_mem_filter he)
  cases hmap : (qt.q_table.filter (fun e => decide (e.1.1 = l))).map (·.2) with
  | nil => rfl
  | cons v vs =>
    apply foldl_max_zero
    · exact hall v (hmap ▸ List.mem_cons_self v vs)
    · intro y hy
      exact hall y (hmap ▸ List.mem_cons_of_mem v hy)

theorem getD_getQ_zero (qt : QTableAlgorithm) (state : Lesson × DifficultyLevel)
    (hz : ∀ e ∈ qt.q_table, e.2 = (0 : ℚ)) : (getQ qt state).getD 0 = 0 := by
  unfold getQ
  cases hf : qt.q_table.find? (fun e => decide (e.1 = state)) with
  | none => rfl
  | some e0 =>
    have := hz e0 (List.mem_of_find?_eq_some hf)
    simp [this]

/-- The raw (unclamped) Q-value the `update` formula stores
(`engine.rs` lines 350-351), as a function of the chosen next lesson. -/
def newQValue (qt : QTableAlgorithm) (state : Lesson × DifficultyLevel)
    (res : LessonResult) (nl : Lesson) : ℚ :=
  (getQ qt state).getD 0 + qt.learning_rate *
    (adjustedReward qt state res
      + qt.discount_factor * maxLessonQ qt nl - (getQ qt state).getD 0)

theorem update_eq (qt : QTableAlgorithm) (state : Lesson × DifficultyLevel)
    (res : LessonResult) (coin : ℚ) (nl : Lesson) (nd : DifficultyLevel)
    (hc : chooseNextDifficulty qt state (masteryFor qt state res) coin = some (nl, nd)) :
    update qt state res coin = some
      ({ qt with q_table := listInsert qt.q_table state (newQValue qt state res nl) },
       masteryFor qt state res) := by
  unfold update newQValue
  rw [hc]

theorem update_some_inv (qt : QTableAlgorithm) (state : Lesson × DifficultyLevel)
    (res : LessonResult) (coin : ℚ) (qt' : QTableAlgorithm) (m : Option Mastery)
    (hu : update qt state res coin = some (qt', m)) :
    ∃ nl nd,
      chooseNextDifficulty qt state (masteryFor qt state res) coin = some (nl, nd) ∧
      qt' = { qt with
        q_table := listInsert qt.q_table state (newQValue qt state res nl) } ∧
      m = masteryFor qt state res := by
  cases hc : chooseNextDifficulty qt state (masteryFor qt state res) coin with
  | none =>
    unfold update at hu
    rw [hc] at hu
    cases hu
  | some p =>
    obtain ⟨nl, nd⟩ := p
    rw [update_eq qt state res coin nl nd hc] at hu
    obtain ⟨h1, h2⟩ := Prod.mk.injEq .. ▸ Option.some.inj hu
    exact ⟨nl, nd, rfl, h1.symm, h2.symm⟩

/-! ## Claim C1 -/

/-- A module of a single Grandmaster lesson, its Q-table seeded with the one
(lesson, difficulty) entry at 0, strategy 1, epsilon 0.3. -/
def c1lesson : Lesson := ⟨0, 1, .Grandmaster⟩

def c1state : Lesson × DifficultyLevel := (c1lesson, .Grandmaster)

def c1qt : QTableAlgorithm := ⟨[(c1state, 0)], 3/10, 1/4, 3/4, .Strategy1⟩

/-- A perfect Grandmaster lesson result: one question, 70 seconds (the band
lower bound), no incorrect attempts, no hints. -/
def c1res : LessonResult := ⟨.Grandmaster, 70, 1, [⟨70, 1, 0, none⟩]⟩

def c1step (qt : QTableAlgorithm) : Option QTableAlgorithm :=
  (update qt c1state c1res 0).map (·.1)

/-- C1, counterexample: starting from the zero-seeded table, after two update
calls (both with a perfect Grandmaster result) the stored Q-value is
69/64 > 1 — `update` never clamps the stored value, so the claimed invariant
"every Q-value lies in [-1, 1]" fails, and no clamp at 1.0 exists. -/
theorem c1_qvalue_exceeds_one_counterexample :
    ((c1step c1qt).bind c1step).bind (fun qt => getQ qt c1state) = some (69/64)
      ∧ ¬ ((69 : ℚ)/64 ≤ 1) := by
  constructor
  · norm_num [c1step, c1qt, c1state, c1lesson, c1res, update, chooseNextDifficulty,
      masteryFor, adjustedReward, computeReward, masteryOf, adjustReward, maxLessonQ,
      getQ, listInsert, difficulties, diffIdx, difficultyWeight, timeBand,
      timeTakenReward, incorrectAttemptsReward, hintsRequestedReward,
      totalIncorrect, totalHints, List.find?, List.filter, List.any, List.getD,
      Option.bind, Option.map]
  · norm_num

def c1qt1 : QTableAlgorithm := ⟨[(c1state, 3/4)], 3/10, 1/4, 3/4, .Strategy1⟩

/-- C1, amended: update stores the raw Q-learning value with no clamp; from a
table seeded with every entry at 0, every value stored by a *single* update
lies in [-1, 1] (with the source's learning rate 0.75 and discount 0.25), but
later updates can leave the interval. -/
theorem c1_first_update_bounded
    (qt : QTableAlgorithm) (state : Lesson × DifficultyLevel) (res : LessonResult)
    (coin : ℚ) (qt' : QTableAlgorithm) (m : Option Mastery)
    (e : (Lesson × DifficultyLevel) × ℚ)
    (hzero : ∀ x ∈ qt.q_table, x.2 = (0 : ℚ))
    (hlr : qt.learning_rate = 3/4) (hdf : qt.discount_factor = 1/4)
    (hu : update qt state res coin = some (qt', m))
    (he : e ∈ qt'.q_table) :
    -1 ≤ e.2 ∧ e.2 ≤ 1 := by
  obtain ⟨nl, nd, hc, hqt', hm⟩ := update_some_inv qt state res coin qt' m hu
  subst hqt'
  rcases mem_listInsert he with hel | hek
  · rw [hzero e hel]
    norm_num
  · have hval : e.2 = newQValue qt state res nl := by rw [hek]
    rw [hval]
    unfold newQValue
    rw [getD_getQ_zero qt state hzero, maxLessonQ_zero qt nl hzero, hlr, hdf]
    have h1 := adjustedReward_le_one qt state res
    have h2 := neg_le_adjustedReward qt state res
    constructor <;> linarith

/-- Witness for `c1_first_update_bounded` at the concrete single-lesson
Grandmaster table: one perfect update stores 3/4 ∈ [-1, 1]. -/
theorem c1_first_update_bounded_witness :
    -1 ≤ (c1state, (3 : ℚ)/4).2 ∧ (c1state, (3 : ℚ)/4).2 ≤ 1 :=
  c1_first_update_bounded c1qt c1state c1res 0 c1qt1 none (c1state, 3/4)
    (by decide)
    (by norm_num [c1qt])
    (by norm_num [c1qt])
    (by norm_num [c1qt, c1qt1, c1state, c1lesson, c1res, update, chooseNextDifficulty,
      masteryFor, adjustedReward, computeReward, masteryOf, adjustReward, maxLessonQ,
      getQ, listInsert, difficulties, diffIdx, difficultyWeight, timeBand,
      timeTakenReward, incorrectAttemptsReward, hintsRequestedReward,
      totalIncorrect, totalHints, List.find?, List.filter, List.any, List.getD])
    (by norm_num [c1qt1, c1state, c1lesson])

/-! ## Claim C2 -/

def c2lessonA : Lesson := ⟨0, 1, .VeryEasy⟩

def c2lessonB : Lesson := ⟨1, 1, .Easy⟩

def c2lessonC : Lesson := ⟨2, 1, .Easy⟩

def c2state : Lesson × DifficultyLevel := (c2lessonA, .VeryEasy)

/-- A table where lesson B has entries at two difficulties, so that the
maximum over B's entries differs from the maximum over the Easy entries. -/
def c2qt : QTableAlgorithm :=
  ⟨[(c2state, 0), ((c2lessonB, .Easy), 1/5), ((c2lessonB, .Medium), 9/10),
    ((c2lessonC, .Easy), 1/2), ((c2lessonC, .Hard), 19/20)],
   3/10, 1/4, 3/4, .Strategy1⟩

/-- A perfect VeryEasy lesson result. -/
def c2res : LessonResult := ⟨.VeryEasy, 5, 1, [⟨5, 1, 0, none⟩]⟩

/-- C2, counterexample: the action-selection policy moves the VeryEasy state
to the next state (B, Easy), and `update` stores 147/160 — computed with
`next_max` = 9/10, the maximum over the entries of *lesson* B across all
difficulties — whereas the claimed formula, whose `next_max` is the maximum
over all entries *at difficulty Easy* (1/2), yields 27/32 ≠ 147/160. -/
theorem c2_next_max_counterexample :
    chooseNextDifficulty c2qt c2state (masteryFor c2qt c2state c2res) 0
        = some (c2lessonB, .Easy)
      ∧ (update c2qt c2state c2res 0).bind (fun p => getQ p.1 c2state)
          = some (147/160)
      ∧ (getQ c2qt c2state).getD 0 + 3/4 * (adjustedReward c2qt c2state c2res
            + 1/4 * specNextMax c2qt .Easy - (getQ c2qt c2state).getD 0)
          = 27/32
      ∧ ¬ ((147 : ℚ)/160 = 27/32) := by
  refine ⟨?_, ?_, ?_, by norm_num⟩ <;>
    norm_num [difficulty_eq_iff, c2qt, c2state, c2lessonA, c2lessonB, c2lessonC, c2res, update,
      chooseNextDifficulty, masteryFor, adjustedReward, computeReward, masteryOf,
      adjustReward, maxLessonQ, specNextMax, getQ, listInsert, difficulties,
      diffIdx, difficultyWeight, timeBand, timeTakenReward,
      incorrectAttemptsReward, hintsRequestedReward, totalIncorrect, totalHints,
      List.find?, List.filter, List.any, List.getD, Option.bind]

/-- C2, amended: for every update that succeeds, the new value stored at `s`
equals `Q[s] + 0.75 * (r + 0.25 * next_max - Q[s])` where `next_max` is the
maximum Q-value over the entries whose *lesson* equals the next-state lesson
chosen by the policy (at any difficulty), or 0 if no such entry exists. -/
theorem c2_update_formula
    (qt : QTableAlgorithm) (state : Lesson × DifficultyLevel) (res : LessonResult)
    (coin : ℚ) (nl : Lesson) (nd : DifficultyLevel)
    (qt' : QTableAlgorithm) (m : Option Mastery)
    (hlr : qt.learning_rate = 3/4) (hdf : qt.discount_factor = 1/4)
    (hc : chooseNextDifficulty qt state (masteryFor qt state res) coin = some (nl, nd))
    (hu : update qt state res coin = some (qt', m)) :
    getQ qt' state = some ((getQ qt state).getD 0
      + 3/4 * (adjustedReward qt state res
          + 1/4 * maxLessonQ qt nl - (getQ qt state).getD 0)) := by
  rw [update_eq qt state res coin nl nd hc] at hu
  obtain ⟨h1, _⟩ := Prod.mk.injEq .. ▸ Option.some.inj hu
  rw [← h1, getQ_listInsert_self]
  unfold newQValue
  rw [hlr, hdf]

def c2qt' : QTableAlgorithm :=
  ⟨[(c2state, 147/160), ((c2lessonB, .Easy), 1/5), ((c2lessonB, .Medium), 9/10),
    ((c2lessonC, .Easy), 1/2), ((c2lessonC, .Hard), 19/20)],
   3/10, 1/4, 3/4, .Strategy1⟩

/-- Witness for `c2_update_formula` at the concrete C2 table. -/
theorem c2_update_formula_witness :
    getQ c2qt' c2state = some ((getQ c2qt c2state).getD 0
      + 3/4 * (adjustedReward c2qt c2state c2res
          + 1/4 * maxLessonQ c2qt c2lessonB - (getQ c2qt c2state).getD 0)) :=
  c2_update_formula c2qt c2state c2res 0 c2lessonB .Easy c2qt' none
    (by norm_num [c2qt]) (by norm_num [c2qt])
    (by norm_num [difficulty_eq_iff, c2qt, c2state, c2lessonA, c2lessonB, c2lessonC, c2res,
      chooseNextDifficulty, masteryFor, difficulties, diffIdx, List.find?,
      List.getD])
    (by norm_num [difficulty_eq_iff, c2qt, c2qt', c2state, c2lessonA, c2lessonB, c2lessonC, c2res,
      update, chooseNextDifficulty, masteryFor, adjustedReward, computeReward,
      masteryOf, adjustReward, maxLessonQ, getQ, listInsert, difficulties,
      diffIdx, difficultyWeight, timeBand, timeTakenReward,
      incorrectAttemptsReward, hintsRequestedReward, totalIncorrect, totalHints,
      List.find?, List.filter, List.any, List.getD])

/-! ## Claim C3 -/

theorem specWeight_eq (d : DifficultyLevel) : specWeight d = difficultyWeight d := by
  cases d <;> norm_num [specWeight, difficultyWeight]

theorem specBand_eq (d : DifficultyLevel) : specBand d = timeBand d := by
  cases d <;> rfl

/-- C3: for every state and lesson result carrying the state's difficulty,
the pre-mastery clamped reward computed by `update` equals the reference
computation of spec section 4.1 (difficulty weights, time band with the
midpoint/excess penalty, the 0.3/0.5/0.2 combination divided by the weight,
clamped to `[-1, 1]`). -/
theorem c3_reward_matches_spec
    (state : Lesson × DifficultyLevel) (res : LessonResult)
    (h : res.difficulty_level = state.2) :
    computeReward state res = specReward41 res state.2 := by
  unfold computeReward specReward41 timeTakenReward incorrectAttemptsReward
    hintsRequestedReward
  rw [h, specWeight_eq, specBand_eq]

def c3state : Lesson × DifficultyLevel := (⟨3, 2, .Medium⟩, .Medium)

/-- A Medium result: 33 seconds, two questions, one incorrect attempt, one
hint. -/
def c3res : LessonResult :=
  ⟨.Medium, 33, 2, [⟨16, 2, 1, some 1⟩, ⟨16, 1, 0, none⟩]⟩

/-- Witness for `c3_reward_matches_spec` at a concrete Medium result. -/
theorem c3_reward_matches_spec_witness :
    computeReward c3state c3res = specReward41 c3res c3state.2 :=
  c3_reward_matches_spec c3state c3res rfl

/-! ## Claim C4 -/

def c4lesson : Lesson := ⟨4, 1, .Grandmaster⟩

def c4state : Lesson × DifficultyLevel := (c4lesson, .Grandmaster)

/-- A Strategy3 (collaborative filtering) Q-table algorithm. -/
def c4qt3 : QTableAlgorithm := ⟨[(c4state, 0)], 3/10, 1/4, 3/4, .Strategy3⟩

/-- A perfect Grandmaster result (clamped reward 1 ≥ 0.80). -/
def c4res : LessonResult := ⟨.Grandmaster, 70, 1, [⟨70, 1, 0, none⟩]⟩

/-- C4, counterexample: Strategy3 is not BaseQLearning, yet `update` performs
no mastery classification (the tag stays `none`) and panics inside
`choose_next_difficulty` (modelled as `none`) instead of classifying the
reward ≥ 0.80 as Full and returning the tag. -/
theorem c4_strategy3_counterexample :
    c4qt3.strategy ≠ Strategy.Strategy1
      ∧ masteryFor c4qt3 c4state c4res = none
      ∧ update c4qt3 c4state c4res 0 = none := by
  refine ⟨by decide, by decide, by decide⟩

/-- C4, amended: mastery classification happens exactly under Strategy2
(MasteryThresholds): there `update` returns the tag obtained from the clamped
reward by the 0.80 / 0.70 / 0.50 thresholds (`masteryOf`), and the reward fed
into the Q-update formula is the classified adjustment (`adjustReward`:
Full → 1, Competent → r + 0.1, Basic → r, None → r − 0.1). -/
theorem c4_mastery_strategy2
    (qt : QTableAlgorithm) (state : Lesson × DifficultyLevel) (res : LessonResult)
    (coin : ℚ) (qt' : QTableAlgorithm) (m : Option Mastery)
    (hs : qt.strategy = Strategy.Strategy2)
    (hu : update qt state res coin = some (qt', m)) :
    m = some (masteryOf (computeReward state res))
      ∧ adjustedReward qt state res
          = adjustReward (masteryOf (computeReward state res))
              (computeReward state res) := by
  obtain ⟨nl, nd, hc, hqt', hm⟩ := update_some_inv qt state res coin qt' m hu
  have hmf : masteryFor qt state res = some (masteryOf (computeReward state res)) := by
    unfold masteryFor
    rw [if_pos hs]
  constructor
  · rw [hm, hmf]
  · unfold adjustedReward
    rw [hmf]

def c4qt2 : QTableAlgorithm := ⟨[(c4state, 0)], 3/10, 1/4, 3/4, .Strategy2⟩

def c4qt2' : QTableAlgorithm := ⟨[(c4state, 3/4)], 3/10, 1/4, 3/4, .Strategy2⟩

/-- Witness for `c4_mastery_strategy2`: the perfect Grandmaster result under
Strategy2 is classified Full and the tag is returned. -/
theorem c4_mastery_strategy2_witness :
    some Mastery.Full = some (masteryOf (computeReward c4state c4res))
      ∧ adjustedReward c4qt2 c4state c4res
          = adjustReward (masteryOf (computeReward c4state c4res))
              (computeReward c4state c4res) :=
  c4_mastery_strategy2 c4qt2 c4state c4res 0 c4qt2' (some Mastery.Full)
    (by decide)
    (by norm_num [difficulty_eq_iff, c4qt2, c4qt2', c4state, c4lesson, c4res,
      update, chooseNextDifficulty, nextIndexMastery, masteryFor, adjustedReward,
      computeReward, masteryOf, adjustReward, maxLessonQ, getQ, listInsert,
      difficulties, diffIdx, difficultyWeight, timeBand, timeTakenReward,
      incorrectAttemptsReward, hintsRequestedReward, totalIncorrect, totalHints,
      List.find?, List.filter, List.any, List.getD])

/-! ## Claim C5 -/

theorem nextIndex_min_eq (i : Nat) (hi : i ≤ 7) (m : Mastery) (coin : ℚ) :
    min (nextIndexMastery i m coin) 7 = specNextIndexRule i m coin := by
  cases m with
  | Full => rfl
  | Competent =>
    simp only [nextIndexMastery, specNextIndexRule]
    split_ifs with hcoin
    · rfl
    · omega
  | Basic =>
    simp only [nextIndexMastery, specNextIndexRule]
    omega
  | None =>
    simp only [nextIndexMastery, specNextIndexRule]
    split_ifs with h0 <;> omega

theorem diffIdx_inj (a b : DifficultyLevel) (h : diffIdx a = diffIdx b) : a = b :=
  (difficulty_eq_iff a b).mpr h

theorem chooseNext_mastery_idx (qt : QTableAlgorithm)
    (state : Lesson × DifficultyLevel) (m : Mastery) (coin : ℚ)
    (nl : Lesson) (nd : DifficultyLevel)
    (hs : qt.strategy ≠ Strategy.Strategy1)
    (hc : chooseNextDifficulty qt state (some m) coin = some (nl, nd)) :
    diffIdx nd = min (nextIndexMastery (diffIdx state.2) m coin) 7 := by
  unfold chooseNextDifficulty at hc
  rw [if_neg hs] at hc
  dsimp only at hc
  cases hf : qt.q_table.find? (fun e => decide (e.1.2 =
      difficulties.getD (min (nextIndexMastery (diffIdx state.2) m coin) 7)
        DifficultyLevel.VeryEasy)) with
  | none =>
    rw [hf] at hc
    cases hc
  | some e =>
    rw [hf] at hc
    obtain ⟨h1, h2⟩ := Prod.mk.injEq .. ▸ Option.some.inj hc
    rw [← h2, diffIdx_getD]
    exact min_le_right _ _

/-- C5: for every non-BaseQLearning strategy, whenever
`choose_next_difficulty` returns, the returned difficulty index follows the
mastery rule of spec section 4.4 — Full moves up one (clamped at 7),
Competent moves up when the 0.6-coin succeeds and stays otherwise, Basic
stays, None drops one level (clamped at 0); in particular Grandmaster + Full
stays Grandmaster and VeryEasy + None stays VeryEasy. -/
theorem c5_next_difficulty_rule (qt : QTableAlgorithm)
    (state : Lesson × DifficultyLevel) (m : Mastery) (coin : ℚ)
    (nl : Lesson) (nd : DifficultyLevel)
    (hs : qt.strategy ≠ Strategy.Strategy1)
    (hc : chooseNextDifficulty qt state (some m) coin = some (nl, nd)) :
    diffIdx nd = specNextIndexRule (diffIdx state.2) m coin
      ∧ (state.2 = DifficultyLevel.Grandmaster → m = Mastery.Full →
          nd = DifficultyLevel.Grandmaster)
      ∧ (state.2 = DifficultyLevel.VeryEasy → m = Mastery.None →
          nd = DifficultyLevel.VeryEasy) := by
  have hidx : diffIdx nd = specNextIndexRule (diffIdx state.2) m coin := by
    rw [chooseNext_mastery_idx qt state m coin nl nd hs hc]
    exact nextIndex_min_eq _ (diffIdx_le_seven state.2) m coin
  refine ⟨hidx, ?_, ?_⟩
  · intro h1 h2
    apply diffIdx_inj
    rw [hidx, h1, h2]
    rfl
  · intro h1 h2
    apply diffIdx_inj
    rw [hidx, h1, h2]
    rfl

def c5lesson : Lesson := ⟨5, 1, .Grandmaster⟩

def c5state : Lesson × DifficultyLevel := (c5lesson, .Grandmaster)

def c5qt : QTableAlgorithm := ⟨[(c5state, 1/2)], 3/10, 1/4, 3/4, .Strategy2⟩

/-- Witness for `c5_next_difficulty_rule` at Grandmaster with Full mastery. -/
theorem c5_next_difficulty_rule_witness :
    diffIdx DifficultyLevel.Grandmaster
        = specNextIndexRule (diffIdx c5state.2) Mastery.Full 0
      ∧ (c5state.2 = DifficultyLevel.Grandmaster → Mastery.Full = Mastery.Full →
          DifficultyLevel.Grandmaster = DifficultyLevel.Grandmaster)
      ∧ (c5state.2 = DifficultyLevel.VeryEasy → Mastery.Full = Mastery.None →
          DifficultyLevel.Grandmaster = DifficultyLevel.VeryEasy) :=
  c5_next_difficulty_rule c5qt c5state Mastery.Full 0 c5lesson
    DifficultyLevel.Grandmaster (by decide) (by decide)

/-! ## Claim C6 -/

theorem getBestAction_snd (qt : QTableAlgorithm) (state : Lesson × DifficultyLevel)
    (l : Lesson) (d : DifficultyLevel)
    (h : getBestAction qt state = some (l, d)) : d = state.2 := by
  unfold getBestAction at h
  have key : ∀ (xs : QTable) (acc : Option ((Lesson × DifficultyLevel) × ℚ)),
      (∀ pv, acc = some pv → pv.1.2 = state.2) →
      ∀ pv, xs.foldl (fun best e =>
          match best with
          | none => if state.2 = e.1.2 then some (e.1, e.2) else none
          | some b => if state.2 = e.1.2 ∧ b.2 < e.2 then some (e.1, e.2)
              else some b) acc = some pv →
        pv.1.2 = state.2 := by
    intro xs
    induction xs with
    | nil => exact fun acc hacc pv hfold => hacc pv hfold
    | cons x xs ih =>
      intro acc hacc pv hfold
      rw [List.foldl_cons] at hfold
      refine ih _ ?_ pv hfold
      intro pv' hpv'
      cases acc with
      | none =>
        dsimp only at hpv'
        split at hpv'
        · rename_i hcond
          obtain rfl := Option.some.inj hpv'
          exact hcond.symm
        · cases hpv'
      | some b =>
        dsimp only at hpv'
        split at hpv'
        · rename_i hcond
          obtain rfl := Option.some.inj hpv'
          exact hcond.1.symm
        · obtain rfl := Option.some.inj hpv'
          exact hacc b rfl
  cases hf : qt.q_table.foldl (fun best e =>
      match best with
      | none => if state.2 = e.1.2 then some (e.1, e.2) else none
      | some b => if state.2 = e.1.2 ∧ b.2 < e.2 then some (e.1, e.2)
          else some b) none with
  | none =>
    rw [hf] at h
    cases h
  | some pv =>
    rw [hf] at h
    have hp : pv.1 = (l, d) := Option.some.inj h
    have h2 := key qt.q_table none (fun pv hpv => by cases hpv) pv hf
    rw [hp] at h2
    exact h2

theorem chooseNext_strategy1_idx (qt : QTableAlgorithm)
    (state : Lesson × DifficultyLevel) (ml : Option Mastery) (coin : ℚ)
    (nl : Lesson) (nd : DifficultyLevel)
    (hs : qt.strategy = Strategy.Strategy1)
    (hc : chooseNextDifficulty qt state ml coin = some (nl, nd)) :
    diffIdx nd = min (diffIdx state.2 + 1) 7 := by
  unfold chooseNextDifficulty at hc
  rw [if_pos hs] at hc
  dsimp only at hc
  cases hf : qt.q_table.find? (fun e => decide (e.1.2 =
      difficulties.getD (min (diffIdx state.2 + 1) 7) DifficultyLevel.VeryEasy)) with
  | none =>
    rw [hf] at hc
    cases hc
  | some e =>
    rw [hf] at hc
    obtain ⟨h1, h2⟩ := Prod.mk.injEq .. ▸ Option.some.inj hc
    rw [← h2, diffIdx_getD]
    exact min_le_right _ _

/-- C6, amended: under BaseQLearning (Strategy1) the epsilon-greedy selection
advances to `min(i+1, 7)` only on the explore branch (`rand < epsilon`); on
the exploit branch it returns the best-valued entry at the *current*
difficulty (same index `i`), falling back to `min(i+1, 7)` only when no entry
at the current difficulty exists. -/
theorem c6_epsilon_greedy_strategy1 (qt : QTableAlgorithm)
    (state : Lesson × DifficultyLevel) (ml : Option Mastery) (rand coin : ℚ)
    (l : Lesson) (d : DifficultyLevel)
    (hs : qt.strategy = Strategy.Strategy1)
    (h : epsilonGreedyAction qt state ml rand coin = some (l, d)) :
    (rand < qt.epsilon → diffIdx d = min (diffIdx state.2 + 1) 7)
      ∧ (¬ rand < qt.epsilon →
          (getBestAction qt state = some (l, d) ∧ d = state.2)
          ∨ (getBestAction qt state = none
              ∧ diffIdx d = min (diffIdx state.2 + 1) 7)) := by
  unfold epsilonGreedyAction at h
  by_cases hr : rand < qt.epsilon
  · rw [if_pos hr] at h
    exact ⟨fun _ => chooseNext_strategy1_idx qt state ml coin l d hs h,
      fun hr' => absurd hr hr'⟩
  · rw [if_neg hr] at h
    refine ⟨fun hr' => absurd hr' hr, fun _ => ?_⟩
    cases hb : getBestAction qt state with
    | none =>
      rw [hb] at h
      exact Or.inr ⟨rfl, chooseNext_strategy1_idx qt state ml coin l d hs h⟩
    | some a =>
      rw [hb] at h
      obtain rfl := Option.some.inj h
      exact Or.inl ⟨rfl, getBestAction_snd qt state l d hb⟩

def c6lesson : Lesson := ⟨6, 1, .VeryEasy⟩

def c6state : Lesson × DifficultyLevel := (c6lesson, .VeryEasy)

def c6qt : QTableAlgorithm := ⟨[(c6state, 0)], 3/10, 1/4, 3/4, .Strategy1⟩

/-- C6, counterexample: with epsilon 0.3 and an exploit draw (0.5 ≥ 0.3), the
Strategy1 selection returns the current VeryEasy entry — index 0, not
`min(0+1, 7) = 1` — so selection does not always advance one level. -/
theorem c6_exploit_counterexample :
    epsilonGreedyAction c6qt c6state none (1/2) 0 = some (c6lesson, .VeryEasy)
      ∧ diffIdx DifficultyLevel.VeryEasy ≠ min (diffIdx DifficultyLevel.VeryEasy + 1) 7 := by
  constructor
  · norm_num [difficulty_eq_iff, epsilonGreedyAction, getBestAction, c6qt,
      c6state, c6lesson, List.foldl]
  · decide

/-- Witness for `c6_epsilon_greedy_strategy1` at the concrete exploit draw. -/
theorem c6_epsilon_greedy_strategy1_witness :
    ((1 : ℚ)/2 < c6qt.epsilon →
        diffIdx DifficultyLevel.VeryEasy = min (diffIdx c6state.2 + 1) 7)
      ∧ (¬ (1 : ℚ)/2 < c6qt.epsilon →
          (getBestAction c6qt c6state = some (c6lesson, DifficultyLevel.VeryEasy)
              ∧ DifficultyLevel.VeryEasy = c6state.2)
          ∨ (getBestAction c6qt c6state = none
              ∧ diffIdx DifficultyLevel.VeryEasy = min (diffIdx c6state.2 + 1) 7)) :=
  c6_epsilon_greedy_strategy1 c6qt c6state none (1/2) 0 c6lesson
    DifficultyLevel.VeryEasy (by decide)
    (by norm_num [difficulty_eq_iff, epsilonGreedyAction, getBestAction, c6qt,
      c6state, c6lesson, List.foldl])

/-! ## Claim C7 -/

/-- A lesson result with a single attempted question recording 5 incorrect
attempts out of 6 tries. -/
def c7res : LessonResult := ⟨.VeryEasy, 5, 1, [⟨5, 6, 5, none⟩]⟩

/-- C7, counterexample: with 5 incorrect attempts over a single attempted
question, the code's sub-reward is `1 - 5/1 = -4` — the denominator is the
*number of attempted questions*, not the total tries — which lies far outside
the claimed range [0, 1]. -/
theorem c7_incorrect_reward_counterexample :
    incorrectAttemptsReward c7res = -4
      ∧ ¬ (0 ≤ incorrectAttemptsReward c7res) := by
  constructor <;>
    norm_num [incorrectAttemptsReward, totalIncorrect, c7res]

theorem foldl_add_incorrect_nonneg (l : List QuestionAttempt) (acc : Int)
    (hacc : 0 ≤ acc) (h : ∀ a ∈ l, 0 ≤ a.incorrect_attempts) :
    0 ≤ l.foldl (fun acc a => acc + a.incorrect_attempts) acc := by
  induction l generalizing acc with
  | nil => exact hacc
  | cons x xs ih =>
    rw [List.foldl_cons]
    exact ih _ (by have := h x (List.mem_cons_self x xs); omega)
      (fun a ha => h a (List.mem_cons_of_mem x ha))

theorem totalIncorrect_nonneg (res : LessonResult)
    (h : ∀ a ∈ res.attempted_questions, 0 ≤ a.incorrect_attempts) :
    0 ≤ totalIncorrect res :=
  foldl_add_incorrect_nonneg res.attempted_questions 0 le_rfl h

theorem attempted_ne_nil_of_totalIncorrect_ne_zero (res : LessonResult)
    (h : totalIncorrect res ≠ 0) : res.attempted_questions ≠ [] := by
  intro hnil
  apply h
  unfold totalIncorrect
  rw [hnil]
  rfl

/-- C7, amended: the incorrect-attempts sub-reward is 1.0 when the total
incorrect count is 0 and otherwise `1 - total_incorrect / q`, where `q` is the
*number of attempted questions* (the length of the attempt list, not the
summed tries). With nonnegative per-question counts it never exceeds 1, and it
lies in [0, 1] exactly when the incorrect total does not exceed the question
count — it goes negative as soon as incorrect attempts outnumber the attempted
questions. -/
theorem c7_incorrect_reward_formula (res : LessonResult)
    (hpos : ∀ a ∈ res.attempted_questions, 0 ≤ a.incorrect_attempts) :
    (totalIncorrect res = 0 → incorrectAttemptsReward res = 1)
      ∧ (totalIncorrect res ≠ 0 →
          incorrectAttemptsReward res
            = 1 - (totalIncorrect res : ℚ) / (res.attempted_questions.length : ℚ))
      ∧ incorrectAttemptsReward res ≤ 1
      ∧ ((totalIncorrect res : ℚ) ≤ (res.attempted_questions.length : ℚ) →
          0 ≤ incorrectAttemptsReward res) := by
  by_cases hz : totalIncorrect res = 0
  · unfold incorrectAttemptsReward
    rw [if_pos hz]
    exact ⟨fun _ => rfl, fun hne => absurd hz hne, le_rfl, fun _ => by norm_num⟩
  · have hlen : 0 < res.attempted_questions.length := by
      have := attempted_ne_nil_of_totalIncorrect_ne_zero res hz
      exact List.length_pos.mpr this
    have hlenq : (0 : ℚ) < (res.attempted_questions.length : ℚ) := by
      exact_mod_cast hlen
    have hti : (0 : ℚ) < (totalIncorrect res : ℚ) := by
      have h0 := totalIncorrect_nonneg res hpos
      have : (0 : ℚ) ≤ (totalIncorrect res : ℚ) := by exact_mod_cast h0
      rcases this.lt_or_eq with h | h
      · exact h
      · exact absurd (by exact_mod_cast h.symm) hz
    unfold incorrectAttemptsReward
    rw [if_neg hz]
    refine ⟨fun hzz => absurd hzz hz, fun _ => rfl, ?_, ?_⟩
    · have hdiv : 0 < (totalIncorrect res : ℚ) / (res.attempted_questions.length : ℚ) :=
        div_pos hti hlenq
      linarith
    · intro hle
      have hdiv : (totalIncorrect res : ℚ) / (res.attempted_questions.length : ℚ) ≤ 1 :=
        (div_le_one hlenq).mpr hle
      linarith

/-- A result with one incorrect attempt over two attempted questions. -/
def c7res2 : LessonResult := ⟨.Easy, 12, 2, [⟨6, 2, 1, none⟩, ⟨6, 1, 0, none⟩]⟩

/-- Witness for `c7_incorrect_reward_formula` at the two-question result. -/
theorem c7_incorrect_reward_formula_witness :
    (totalIncorrect c7res2 = 0 → incorrectAttemptsReward c7res2 = 1)
      ∧ (totalIncorrect c7res2 ≠ 0 →
          incorrectAttemptsReward c7res2
            = 1 - (totalIncorrect c7res2 : ℚ)
                / (c7res2.attempted_questions.length : ℚ))
      ∧ incorrectAttemptsReward c7res2 ≤ 1
      ∧ ((totalIncorrect c7res2 : ℚ) ≤ (c7res2.attempted_questions.length : ℚ) →
          0 ≤ incorrectAttemptsReward c7res2) :=
  c7_incorrect_reward_formula c7res2 (by decide)

/-! ## Claim C8 -/

def c8lesson : Lesson := ⟨8, 2, .VeryEasy⟩

def c8qt : QTableAlgorithm := ⟨[((c8lesson, .VeryEasy), 0)], 3/10, 1/4, 3/4, .Strategy1⟩

/-- C8: the simulated lesson attempt is a deterministic function of the
stream of uniform draws it consumes, and genuinely depends on that stream:
two draw streams that differ in the first attempt draw (0 versus 0.96, against
the VeryEasy correctness factor 0.95) produce different lesson results. In the
source every such draw comes from `rand::thread_rng()` — the process-global
thread-local RNG — and no caller-facing seed exists anywhere in the
simulation entry points, so the stream cannot be pinned by a caller. -/
theorem c8_draws_determine_output :
    simulateLessonAttempt c8lesson c8qt [1/2, 0, 0]
        = some ⟨.VeryEasy, 7, 2, [⟨3, 1, 0, none⟩, ⟨3, 1, 0, none⟩]⟩
      ∧ simulateLessonAttempt c8lesson c8qt [1/2, 24/25, 0, 0]
          = some ⟨.VeryEasy, 7, 2, [⟨3, 2, 1, none⟩, ⟨3, 1, 0, none⟩]⟩
      ∧ simulateLessonAttempt c8lesson c8qt [1/2, 0, 0]
          ≠ simulateLessonAttempt c8lesson c8qt [1/2, 24/25, 0, 0] := by
  have ht : Int.tdiv 7 2 = 3 := by decide
  have h1 : simulateLessonAttempt c8lesson c8qt [1/2, 0, 0]
      = some ⟨.VeryEasy, 7, 2, [⟨3, 1, 0, none⟩, ⟨3, 1, 0, none⟩]⟩ := by
    norm_num [ht, simulateLessonAttempt, runQuestions, attemptsFromDraws,
      questionCorrectnessFactor, correctnessFactorBase, sampleTime, getQ,
      c8lesson, c8qt, List.find?, Int.floor_eq_iff]
  have h2 : simulateLessonAttempt c8lesson c8qt [1/2, 24/25, 0, 0]
      = some ⟨.VeryEasy, 7, 2, [⟨3, 2, 1, none⟩, ⟨3, 1, 0, none⟩]⟩ := by
    norm_num [ht, simulateLessonAttempt, runQuestions, attemptsFromDraws,
      questionCorrectnessFactor, correctnessFactorBase, sampleTime, getQ,
      c8lesson, c8qt, List.find?, Int.floor_eq_iff]
  refine ⟨h1, h2, ?_⟩
  rw [h1, h2]
  intro hcontra
  have := Option.some.inj hcontra
  cases this

/-! ## Claim C9 -/

def c9L : ASDTraits := ⟨5, [.Verbal], .Medium, .Low⟩

def c9T : ASDTraits := ⟨10, [.Verbal], .Medium, .Low⟩

/-- C9, counterexample: for a learner with attention span 5 against a target
of 10, the source computes the attention ratio with truncating *integer*
division before the float cast (`(5 / 10) as f32 = 0`), so the alignment is
0.6; the claimed real-division formula `min(5/10, 1) = 0.5` gives 0.8. -/
theorem c9_integer_division_counterexample :
    calculate_alignment c9L c9T = 3/5
      ∧ specAlignment c9L c9T = 4/5
      ∧ calculate_alignment c9L c9T ≠ specAlignment c9L c9T := by
  have ht : Int.tdiv 5 10 = 0 := by decide
  refine ⟨?_, ?_, ?_⟩ <;>
    norm_num [ht, calculate_alignment, specAlignment, communicationLevelAlignment,
      motorSkillsAlignment, c9L, c9T, List.filter]

theorem commLevel_bounds (a b : CommunicationLevel) :
    0 ≤ communicationLevelAlignment a b ∧ communicationLevelAlignment a b ≤ 1 := by
  cases a <;> cases b <;> norm_num [communicationLevelAlignment]

theorem motorSkills_bounds (a b : MotorSkills) :
    0 ≤ motorSkillsAlignment a b ∧ motorSkillsAlignment a b ≤ 1 := by
  cases a <;> cases b <;> norm_num [motorSkillsAlignment]

theorem filter_mem_length_le (L T : List Communicability) (h : L.Nodup) :
    (L.filter (fun c => decide (c ∈ T))).length ≤ T.length := by
  have h1 : (L.filter (fun c => decide (c ∈ T))).Nodup := h.filter _
  have h2 : ∀ x ∈ L.filter (fun c => decide (c ∈ T)), x ∈ T := by
    intro x hx
    exact of_decide_eq_true (List.mem_filter.mp hx).2
  calc (L.filter (fun c => decide (c ∈ T))).length
      = (L.filter (fun c => decide (c ∈ T))).toFinset.card :=
        (List.toFinset_card_of_nodup h1).symm
    _ ≤ T.toFinset.card := Finset.card_le_card (fun x hx =>
        List.mem_toFinset.mpr (h2 x (List.mem_toFinset.mp hx)))
    _ ≤ T.length := List.toFinset_card_le T

/-- C9, amended: provided the learner's attention span is nonnegative, the
target's is positive, the learner's communicability list has no duplicates and
the target's is nonempty, the alignment — whose attention term is
`min((L.attention_span tdiv T.attention_span), 1)` with truncating integer
division, combined by the 0.4/0.2/0.2/0.2 weighted sum — lies in [0, 1]. -/
theorem c9_alignment_bounds (l t : ASDTraits)
    (hl : 0 ≤ l.attention_span) (ht : 0 < t.attention_span)
    (hnodup : l.communicability.Nodup) (hne : t.communicability ≠ []) :
    0 ≤ calculate_alignment l t ∧ calculate_alignment l t ≤ 1 := by
  have ha1 : (0 : ℚ) ≤ min ((Int.tdiv l.attention_span t.attention_span : Int) : ℚ) 1 :=
    le_min (by exact_mod_cast Int.tdiv_nonneg hl ht.le) (by norm_num)
  have ha2 : min ((Int.tdiv l.attention_span t.attention_span : Int) : ℚ) 1 ≤ 1 :=
    min_le_right _ _
  have hlenpos : (0 : ℚ) < (t.communicability.length : ℚ) := by
    exact_mod_cast List.length_pos.mpr hne
  have hcount : ((l.communicability.filter
          (fun c => decide (c ∈ t.communicability))).length : ℚ)
      ≤ (t.communicability.length : ℚ) := by
    exact_mod_cast filter_mem_length_le l.communicability t.communicability hnodup
  have hc1 : (0 : ℚ) ≤ ((l.communicability.filter
          (fun c => decide (c ∈ t.communicability))).length : ℚ)
        / (t.communicability.length : ℚ) :=
    div_nonneg (by positivity) hlenpos.le
  have hc2 : ((l.communicability.filter
          (fun c => decide (c ∈ t.communicability))).length : ℚ)
        / (t.communicability.length : ℚ) ≤ 1 :=
    (div_le_one hlenpos).mpr hcount
  have hlv := commLevel_bounds l.communication_level t.communication_level
  have hmo := motorSkills_bounds l.motor_skills t.motor_skills
  have hcl1 : (0 : ℚ) ≤ (((l.communicability.filter
          (fun c => decide (c ∈ t.communicability))).length : ℚ)
        / (t.communicability.length : ℚ))
      * communicationLevelAlignment l.communication_level t.communication_level :=
    mul_nonneg hc1 hlv.1
  have hcl2 : (((l.communicability.filter
          (fun c => decide (c ∈ t.communicability))).length : ℚ)
        / (t.communicability.length : ℚ))
      * communicationLevelAlignment l.communication_level t.communication_level ≤ 1 :=
    mul_le_one₀ hc2 hlv.1 hlv.2
  unfold calculate_alignment
  constructor <;> linarith

/-- Witness for `c9_alignment_bounds` at the concrete C9 trait pair. -/
theorem c9_alignment_bounds_witness :
    0 ≤ calculate_alignment c9L c9T ∧ calculate_alignment c9L c9T ≤ 1 :=
  c9_alignment_bounds c9L c9T (by decide) (by decide) (by decide) (by decide)

/-! ## Claim C10 -/

/-- C10: an update that succeeds changes only the entry of the state it was
called on: every other key keeps its value, and the epsilon, learning-rate,
discount-factor and strategy fields are untouched. -/
theorem c10_update_frame (qt : QTableAlgorithm)
    (state : Lesson × DifficultyLevel) (res : LessonResult) (coin : ℚ)
    (qt' : QTableAlgorithm) (m : Option Mastery)
    (k : Lesson × DifficultyLevel)
    (hk : k ≠ state)
    (hu : update qt state res coin = some (qt', m)) :
    qt'.epsilon = qt.epsilon ∧ qt'.learning_rate = qt.learning_rate
      ∧ qt'.discount_factor = qt.discount_factor ∧ qt'.strategy = qt.strategy
      ∧ getQ qt' k = getQ qt k := by
  obtain ⟨nl, nd, hc, hqt', hm⟩ := update_some_inv qt state res coin qt' m hu
  subst hqt'
  exact ⟨rfl, rfl, rfl, rfl, getQ_listInsert_ne qt state k _ hk⟩

def c10lessonA : Lesson := ⟨10, 1, .VeryEasy⟩

def c10lessonB : Lesson := ⟨11, 1, .Easy⟩

def c10state : Lesson × DifficultyLevel := (c10lessonA, .VeryEasy)

def c10k : Lesson × DifficultyLevel := (c10lessonB, .Easy)

def c10qt : QTableAlgorithm :=
  ⟨[(c10state, 0), (c10k, 7/10)], 3/10, 1/4, 3/4, .Strategy1⟩

def c10res : LessonResult := ⟨.VeryEasy, 5, 1, [⟨5, 1, 0, none⟩]⟩

def c10qt' : QTableAlgorithm :=
  ⟨[(c10state, 141/160), (c10k, 7/10)], 3/10, 1/4, 3/4, .Strategy1⟩

/-- Witness for `c10_update_frame`: updating the VeryEasy state leaves the
Easy entry and all scalar fields unchanged. -/
theorem c10_update_frame_witness :
    c10qt'.epsilon = c10qt.epsilon ∧ c10qt'.learning_rate = c10qt.learning_rate
      ∧ c10qt'.discount_factor = c10qt.discount_factor
      ∧ c10qt'.strategy = c10qt.strategy
      ∧ getQ c10qt' c10k = getQ c10qt c10k :=
  c10_update_frame c10qt c10state c10res 0 c10qt' none c10k
    (by decide)
    (by norm_num [difficulty_eq_iff, c10qt, c10qt', c10state, c10k, c10lessonA,
      c10lessonB, c10res, update, chooseNextDifficulty, masteryFor,
      adjustedReward, computeReward, masteryOf, adjustReward, maxLessonQ, getQ,
      listInsert, difficulties, diffIdx, difficultyWeight, timeBand,
      timeTakenReward, incorrectAttemptsReward, hintsRequestedReward,
      totalIncorrect, totalHints, List.find?, List.filter, List.any, List.getD])
